import Mathlib

/-!
Verification of the SRT→LRC subtitle converter (`src/lyrics.py`).

Strings are modelled as `List Char` (one entry per Unicode scalar, matching
Python's `str` code points).  The embedding is faithful on inputs whose
whitespace and digits are ASCII: Python's `\s`, `\d` and `str.strip` also
accept some non-ASCII characters, which this model does not treat specially.
The file system is modelled as a partial map from paths to file contents;
`open(path)` raising `FileNotFoundError` corresponds to the map returning
`none` at `path`.
-/

/-- Python's whitespace class for `\s` and `str.strip` (ASCII part):
space, tab, newline, carriage return, vertical tab, form feed. -/
def pyWs (c : Char) : Bool :=
  c = ' ' || c = '\t' || c = '\n' || c = '\r' || c = '\x0b' || c = '\x0c'

/-- Python `str.strip()`: drop leading and trailing whitespace. -/
def pyStrip (cs : List Char) : List Char :=
  ((cs.dropWhile pyWs).reverse.dropWhile pyWs).reverse

/-- The character for a single decimal digit value. -/
def digitChar (d : Nat) : Char := Char.ofNat (48 + d)

/-- Little-endian decimal digits of `n`, with explicit fuel (`fuel ≥ n`
suffices for `n ≥ 1`, since each step divides by 10). -/
def tda : Nat → Nat → List Nat
  | 0, _ => []
  | fuel + 1, n => if n = 0 then [] else (n % 10) :: tda fuel (n / 10)

/-- Python `str(n)` for a nonnegative integer: its decimal representation. -/
def numStr (n : Nat) : List Char :=
  if n = 0 then ['0'] else ((tda n n).map digitChar).reverse

/-- Python `int(s)` on a string of decimal digits. -/
def parseNat (cs : List Char) : Nat :=
  cs.foldl (fun a c => 10 * a + (c.toNat - 48)) 0

/-- Python format `f"{n:02d}"` for `n ≥ 0`: zero-pad to width 2 (wider
numbers are printed in full). -/
def pad2 (n : Nat) : List Char :=
  if n < 10 then '0' :: numStr n else numStr n

/-- A three-digit zero-padded decimal rendering, used to build canonical
`H:MM:SS,mmm` inputs (this is input construction, not part of the code). -/
def pad3 (n : Nat) : List Char :=
  if n < 10 then '0' :: '0' :: numStr n
  else if n < 100 then '0' :: numStr n
  else numStr n

/-- `⌊log₂ n⌋` with explicit fuel (`fuel ≥ bit-length of n` suffices). -/
def natLog2Aux : Nat → Nat → Nat
  | 0, _ => 0
  | fuel + 1, n => if n < 2 then 0 else natLog2Aux fuel (n / 2) + 1

/-- `⌊log₂ n⌋`; fuel 1100 covers every `n < 2 ^ 1100`, far beyond the range
where CPython's float division can return at all (it raises `OverflowError`
once the quotient exceeds the largest double, near `2 ^ 1024`). -/
def natLog2 (n : Nat) : Nat := natLog2Aux 1100 n

/-- `⌊log₂ (v / 10)⌋` as an integer, for `v ≥ 1` (exact rational `v / 10`).
For `v ≥ 10` this is `⌊log₂ ⌊v / 10⌋⌋` (an integer power `2 ^ k` bounds the
rational `v / 10` iff it bounds its floor); for `1 ≤ v ≤ 9` the value is
read off from `0.1 ≤ v / 10 ≤ 0.9`. -/
def floorLog2Frac (v : Nat) : Int :=
  if 10 ≤ v then (natLog2 (v / 10) : Int)
  else if 5 ≤ v then -1
  else if 3 ≤ v then -2
  else if 2 ≤ v then -3
  else -4

/-- Round `a / d` (exact rational) to the nearest integer, ties to even. -/
def rne (a d : Nat) : Nat :=
  if d < 2 * (a % d) then a / d + 1
  else if 2 * (a % d) < d then a / d
  else a / d + a / d % 2

/-- Python `int(v / 10)` for a nonnegative integer `v`: CPython's
`int.__truediv__` produces the IEEE-754 double nearest to the exact
rational `v / 10` (round to nearest, ties to even, 53-bit significand),
and `int` then truncates it toward zero.  With
`e = ⌊log₂ (v / 10)⌋` the double's significand is the nearest-even
rounding of `(v / 10) · 2 ^ (52 - e)` and its value is that significand
times `2 ^ (e - 52)`; the floor of that value is computed below in exact
integer arithmetic.  Faithful to CPython for every `v` on which the
division returns (beyond `≈ 2 ^ 1034` CPython raises `OverflowError`). -/
def pyIntDiv10 (v : Nat) : Nat :=
  if v = 0 then 0
  else
    let e := floorLog2Frac v
    if e ≤ 52 then
      let shift := (52 - e).toNat
      rne (v * 2 ^ shift) 10 / 2 ^ shift
    else
      let shift := (e - 52).toNat
      rne v (10 * 2 ^ shift) * 2 ^ shift

/-- The four captured groups of the timestamp pattern
`(\d+):(\d+):(\d+)[,.](\d+)` together with the separator character. -/
structure TsGroups where
  d1 : List Char
  d2 : List Char
  d3 : List Char
  sep : Char
  d4 : List Char
  deriving Repr, DecidableEq

/-- The text matched by the timestamp pattern. -/
def tsText (g : TsGroups) : List Char :=
  g.d1 ++ ':' :: g.d2 ++ ':' :: g.d3 ++ g.sep :: g.d4

/-- `re.match(r'(\d+):(\d+):(\d+)[,.](\d+)', ·)`: anchored prefix match.
Each greedy `\d+` is followed by a non-digit, so it matches exactly the
maximal digit run (backtracking cannot help).  Returns the groups and the
unmatched remainder of the string. -/
def matchTs (cs : List Char) : Option (TsGroups × List Char) :=
  match cs.dropWhile Char.isDigit with
  | [] => none
  | c1 :: r1 =>
    if c1 ≠ ':' ∨ cs.takeWhile Char.isDigit = [] then none
    else
      match r1.dropWhile Char.isDigit with
      | [] => none
      | c2 :: r2 =>
        if c2 ≠ ':' ∨ r1.takeWhile Char.isDigit = [] then none
        else
          match r2.dropWhile Char.isDigit with
          | [] => none
          | c3 :: r3 =>
            if (c3 = ',' ∨ c3 = '.') ∧ r2.takeWhile Char.isDigit ≠ [] ∧
                r3.takeWhile Char.isDigit ≠ [] then
              some (⟨cs.takeWhile Char.isDigit, r1.takeWhile Char.isDigit,
                r2.takeWhile Char.isDigit, c3, r3.takeWhile Char.isDigit⟩,
                r3.dropWhile Char.isDigit)
            else none

/-- LRC timestamp rendering `f"[{totalMin:02d}:{s:02d}.{centi:02d}]"`. -/
def lrcFormat (totalMin s centi : Nat) : List Char :=
  '[' :: (pad2 totalMin ++ ':' :: pad2 s ++ '.' :: pad2 centi ++ [']'])

/-- `srt_time_to_lrc` from `src/lyrics.py`: parse `(\d+):(\d+):(\d+)[,.](\d+)`
as a prefix, return `None` on failure, else format
`[h*60+m : s . int(ms/10)]` with each field zero-padded to two digits. -/
def srt_time_to_lrc (cs : List Char) : Option (List Char) :=
  match matchTs cs with
  | none => none
  | some (g, _) =>
      some (lrcFormat (parseNat g.d1 * 60 + parseNat g.d2) (parseNat g.d3)
        (pyIntDiv10 (parseNat g.d4)))

/-- `re.match(r'(\d+:\d+:\d+[,.]\d+)\s*-->\s*(\d+:\d+:\d+[,.]\d+)', line)`:
prefix match of start timestamp, optional whitespace, the arrow `-->`,
optional whitespace, end timestamp; returns group 1 (the start timestamp
text).  As in `matchTs`, every greedy piece is followed by a character its
class excludes, so maximal munch is exact. -/
def timeLineMatch (cs : List Char) : Option (List Char) :=
  match matchTs cs with
  | none => none
  | some (g, rest) =>
    match rest.dropWhile pyWs with
    | '-' :: '-' :: '>' :: r2 =>
      match matchTs (r2.dropWhile pyWs) with
      | some _ => some (tsText g)
      | none => none
    | _ => none

/-- Python `s.split('\n')`: split at every newline, keeping empty parts. -/
def splitNl : List Char → List (List Char)
  | [] => [[]]
  | c :: rest =>
    if c = '\n' then [] :: splitNl rest
    else
      match splitNl rest with
      | [] => [[c]]
      | t :: ts => (c :: t) :: ts

/-- For the separator pattern `\n\s*\n` matched at a `\n` whose following
characters are `rest`: the greedy `\s*` plus final `\n` end at the last
newline inside the maximal whitespace run at the head of `rest`.  Returns
the index (in `rest`) of that last newline, or `none` if the run contains
no newline (so the pattern fails at this position). -/
def wsRunLastNl (rest : List Char) : Option Nat :=
  let run := rest.takeWhile pyWs
  let t := (run.reverse.takeWhile (fun c => c != '\n')).length
  if t = run.length then none else some (run.length - t - 1)

/-- Leftmost match of `\n\s*\n` in a string: returns the text before the
match and the text after it, or `none` when there is no match. -/
def findSep : List Char → Option (List Char × List Char)
  | [] => none
  | c :: rest =>
    if c = '\n' then
      match wsRunLastNl rest with
      | some k => some ([], rest.drop (k + 1))
      | none => (findSep rest).map (fun pr => (c :: pr.1, pr.2))
    else (findSep rest).map (fun pr => (c :: pr.1, pr.2))

/-- `re.split(r'\n\s*\n', ·)`: repeatedly split at the leftmost separator
match, continuing after it.  Each match consumes at least two characters,
so fuel equal to the string length is sufficient. -/
def pySplitSep : Nat → List Char → List (List Char)
  | 0, cs => [cs]
  | fuel + 1, cs =>
    match findSep cs with
    | none => [cs]
    | some (p, s) => p :: pySplitSep fuel s

/-- `re.split(r'\n\s*\n', cs)`. -/
def pySplitBlank (cs : List Char) : List (List Char) :=
  pySplitSep cs.length cs

/-- Leftmost match of `<` `inner⁺` `>` where `inner` is the character class
of the regex between the angle brackets (`[^>]` in the code).  Returns the
text before the match and the text after it.  After a failed attempt at a
`<` the scan resumes one character later, as `re` does. -/
def findTag (inner : Char → Bool) : List Char → Option (List Char × List Char)
  | [] => none
  | c :: rest =>
    if c = '<' then
      match rest.dropWhile inner with
      | '>' :: rem =>
        if rest.takeWhile inner = [] then
          (findTag inner rest).map (fun pr => (c :: pr.1, pr.2))
        else some ([], rem)
      | _ => (findTag inner rest).map (fun pr => (c :: pr.1, pr.2))
    else (findTag inner rest).map (fun pr => (c :: pr.1, pr.2))

/-- `re.sub(pat, '', ·)`: remove every leftmost match, scanning forward.
Each removed match is at least three characters long, so fuel equal to the
string length is sufficient. -/
def subTags (inner : Char → Bool) : Nat → List Char → List Char
  | 0, cs => cs
  | fuel + 1, cs =>
    match findTag inner cs with
    | none => cs
    | some (pre, suf) => pre ++ subTags inner fuel suf

/-- `re.sub(r'<[^>]+>', '', cs)` from the code: the characters between the
angle brackets may be anything except `>` — in particular they may include
another `<`. -/
def stripTags (cs : List Char) : List Char :=
  subTags (fun c => c != '>') cs.length cs

/-- Modelled from the spec's words for comparison (claim about tag
stripping): remove every substring `<...>` whose inner characters contain
no nested angle bracket of either kind, i.e. neither `<` nor `>`. -/
def specStripTags (cs : List Char) : List Char :=
  subTags (fun c => c != '>' && c != '<') cs.length cs

/-- The cleaned text of a block: join the lines from index 2 on with a
single space, strip tags, trim whitespace. -/
def cleanedText (block : List Char) : List Char :=
  pyStrip (stripTags (List.intercalate [' '] ((splitNl (pyStrip block)).drop 2)))

/-- The body of the `for block in blocks` loop in `srt_to_lrc`: `none`
when the block is skipped (fewer than 3 lines, second line not a time
range, start timestamp unconvertible, or empty cleaned text), otherwise
the emitted output line, the LRC timestamp immediately followed by the
cleaned text. -/
def processBlock (block : List Char) : Option (List Char) :=
  if (splitNl (pyStrip block)).length < 3 then none
  else
    match timeLineMatch ((splitNl (pyStrip block)).getD 1 []) with
    | none => none
    | some g1 =>
      match srt_time_to_lrc g1 with
      | none => none
      | some lrcTime =>
        if cleanedText block = [] then none
        else some (lrcTime ++ cleanedText block)

/-- All output lines of a document: the loop over
`re.split(r'\n\s*\n', content.strip())` appending each produced line. -/
def lrcLines (content : List Char) : List (List Char) :=
  (pySplitBlank (pyStrip content)).filterMap processBlock

/-- Split a list at the LAST occurrence of `c`: `some (before, after)`
with the occurrence itself dropped, or `none` when `c` does not occur. -/
def lastSplit (c : Char) (l : List Char) : Option (List Char × List Char) :=
  let r := l.reverse
  let afterRev := r.takeWhile (fun x => x != c)
  match r.dropWhile (fun x => x != c) with
  | [] => none
  | _ :: beforeRev => some (beforeRev.reverse, afterRev.reverse)

/-- `os.path.splitext(p)[0]` on POSIX: if the last `.` of `p` lies after
the last `/` and some character of the basename strictly before that `.`
is not a `.` itself, the root is everything before that last `.`;
otherwise the whole path. -/
def splitextRoot (p : List Char) : List Char :=
  let dirBase : List Char × List Char :=
    match lastSplit '/' p with
    | some (b, a) => (b ++ ['/'], a)
    | none => ([], p)
  match lastSplit '.' dirBase.2 with
  | none => p
  | some (pre, _) => if pre.any (fun c => c != '.') then dirBase.1 ++ pre else p

/-- The file system: a partial map from paths to file contents. -/
abbrev FS : Type := List Char → Option (List Char)

/-- Writing a file replaces (or creates) exactly the entry at `p`. -/
def fsWrite (fs : FS) (p c : List Char) : FS :=
  fun q => if q = p then some c else fs q

/-- `srt_to_lrc` from `src/lyrics.py`.  Returns the value the Python
function returns together with the file system after the call.  The output
path defaults to the input path with its extension replaced by `.lrc`;
a missing input file (`FileNotFoundError`) and an empty line list both
return `None` without touching the file system; otherwise the lines are
joined with newlines, a trailing newline is appended, the result is
written to the output path, and that path is returned. -/
def srt_to_lrc (fs : FS) (srt_path : List Char) (lrcPathArg : Option (List Char)) :
    Option (List Char) × FS :=
  let lrc_path := lrcPathArg.getD (splitextRoot srt_path ++ (".lrc").data)
  match fs srt_path with
  | none => (none, fs)
  | some content =>
    let ls := lrcLines content
    if ls = [] then (none, fs)
    else (some lrc_path, fsWrite fs lrc_path (List.intercalate ['\n'] ls ++ ['\n']))

/-- Canonical rendering of a timestamp `H:MM:SS,mmm`: hours unpadded,
minutes and seconds zero-padded to two digits, milliseconds to three.
Used to quantify over all valid SRT timestamps of that shape. -/
def tsStr (h m s ms : Nat) : List Char :=
  numStr h ++ ':' :: (pad2 m ++ ':' :: (pad2 s ++ ',' :: pad3 ms))

/-! ### Helper lemmas: digit runs and decimal rendering -/

theorem takeWhile_all_append (p : Char → Bool) (l r : List Char)
    (h : ∀ c ∈ l, p c = true) :
    (l ++ r).takeWhile p = l ++ r.takeWhile p := by
  induction l with
  | nil => simp
  | cons a t ih =>
    have ha : p a = true := h a (List.mem_cons_self a t)
    have ht : ∀ c ∈ t, p c = true := fun c hc => h c (List.mem_cons_of_mem a hc)
    simp [List.takeWhile_cons, ha, ih ht]

theorem dropWhile_all_append (p : Char → Bool) (l r : List Char)
    (h : ∀ c ∈ l, p c = true) :
    (l ++ r).dropWhile p = r.dropWhile p := by
  induction l with
  | nil => simp
  | cons a t ih =>
    have ha : p a = true := h a (List.mem_cons_self a t)
    have ht : ∀ c ∈ t, p c = true := fun c hc => h c (List.mem_cons_of_mem a hc)
    simp [List.dropWhile_cons, ha, ih ht]

theorem takeWhile_all (p : Char → Bool) (l : List Char) (h : ∀ c ∈ l, p c = true) :
    l.takeWhile p = l := by
  have := takeWhile_all_append p l [] h
  simpa using this

theorem dropWhile_all (p : Char → Bool) (l : List Char) (h : ∀ c ∈ l, p c = true) :
    l.dropWhile p = [] := by
  have := dropWhile_all_append p l [] h
  simpa using this

theorem tda_eq_digits : ∀ fuel n, n ≤ fuel → tda fuel n = Nat.digits 10 n := by
  intro fuel
  induction fuel with
  | zero =>
    intro n hn
    have : n = 0 := by omega
    subst this
    simp [tda]
  | succ f ih =>
    intro n hn
    by_cases h0 : n = 0
    · subst h0; simp [tda]
    · have hlt : n / 10 < n := Nat.div_lt_self (Nat.pos_of_ne_zero h0) (by norm_num)
      simp only [tda, h0, if_false]
      rw [Nat.digits_def' (by norm_num : (1 : ℕ) < 10) (Nat.pos_of_ne_zero h0),
        ih (n / 10) (by omega)]

theorem numStr_eq (n : Nat) :
    numStr n = if n = 0 then ['0'] else ((Nat.digits 10 n).map digitChar).reverse := by
  unfold numStr
  by_cases h : n = 0
  · simp [h]
  · simp [h, tda_eq_digits n n le_rfl]

theorem digitChar_isDigit {d : Nat} (h : d < 10) : (digitChar d).isDigit = true := by
  interval_cases d <;> decide

theorem digitChar_val {d : Nat} (h : d < 10) : (digitChar d).toNat - 48 = d := by
  interval_cases d <;> decide

theorem numStr_all_digits (n : Nat) : ∀ c ∈ numStr n, c.isDigit = true := by
  intro c hc
  rw [numStr_eq] at hc
  by_cases h : n = 0
  · simp [h] at hc
    subst hc
    decide
  · simp only [h, if_false, List.mem_reverse, List.mem_map] at hc
    obtain ⟨d, hd, rfl⟩ := hc
    exact digitChar_isDigit (Nat.digits_lt_base (by norm_num) hd)

theorem numStr_ne_nil (n : Nat) : numStr n ≠ [] := by
  rw [numStr_eq]
  by_cases h : n = 0
  · simp [h]
  · simp only [h, if_false, ne_eq, List.reverse_eq_nil_iff, List.map_eq_nil_iff]
    exact Nat.digits_ne_nil_iff_ne_zero.mpr h

theorem foldl_digits_rev (L : List Nat) (hL : ∀ d ∈ L, d < 10) (a : Nat) :
    List.foldl (fun a c => 10 * a + (c.toNat - 48)) a ((L.map digitChar).reverse) =
      a * 10 ^ L.length + Nat.ofDigits 10 L := by
  induction L generalizing a with
  | nil => simp [Nat.ofDigits_nil]
  | cons d T ih =>
    have hd : d < 10 := hL d (List.mem_cons_self d T)
    have hT : ∀ x ∈ T, x < 10 := fun x hx => hL x (List.mem_cons_of_mem d hx)
    simp only [List.map_cons, List.reverse_cons, List.foldl_append, List.foldl_cons,
      List.foldl_nil, ih hT, Nat.ofDigits_cons, List.length_cons, digitChar_val hd]
    ring

theorem parseNat_numStr (n : Nat) : parseNat (numStr n) = n := by
  rw [numStr_eq]
  by_cases h : n = 0
  · subst h
    decide
  · simp only [h, if_false]
    unfold parseNat
    rw [foldl_digits_rev _ (fun d hd => Nat.digits_lt_base (by norm_num) hd) 0]
    simp [Nat.ofDigits_digits]

theorem parseNat_cons_zero (l : List Char) : parseNat ('0' :: l) = parseNat l := rfl

theorem parseNat_pad2 (n : Nat) : parseNat (pad2 n) = n := by
  unfold pad2
  split_ifs with h
  · rw [parseNat_cons_zero, parseNat_numStr]
  · exact parseNat_numStr n

theorem parseNat_pad3 (n : Nat) : parseNat (pad3 n) = n := by
  unfold pad3
  split_ifs with h1 h2
  · rw [parseNat_cons_zero, parseNat_cons_zero, parseNat_numStr]
  · rw [parseNat_cons_zero, parseNat_numStr]
  · exact parseNat_numStr n

theorem pad2_all_digits (n : Nat) : ∀ c ∈ pad2 n, c.isDigit = true := by
  intro c hc
  unfold pad2 at hc
  split_ifs at hc
  · rcases List.mem_cons.mp hc with rfl | hc
    · decide
    · exact numStr_all_digits _ _ hc
  · exact numStr_all_digits _ _ hc

theorem pad3_all_digits (n : Nat) : ∀ c ∈ pad3 n, c.isDigit = true := by
  intro c hc
  unfold pad3 at hc
  split_ifs at hc
  · rcases List.mem_cons.mp hc with rfl | hc
    · decide
    · rcases List.mem_cons.mp hc with rfl | hc
      · decide
      · exact numStr_all_digits _ _ hc
  · rcases List.mem_cons.mp hc with rfl | hc
    · decide
    · exact numStr_all_digits _ _ hc
  · exact numStr_all_digits _ _ hc

theorem pad2_ne_nil (n : Nat) : pad2 n ≠ [] := by
  unfold pad2
  split_ifs
  · simp
  · exact numStr_ne_nil n

theorem pad3_ne_nil (n : Nat) : pad3 n ≠ [] := by
  unfold pad3
  split_ifs
  · simp
  · simp
  · exact numStr_ne_nil n

/-! ### Helper lemmas: the float model of `int(v / 10)` -/

theorem natLog2Aux_le : ∀ fuel n k, n < 2 ^ (k + 1) → natLog2Aux fuel n ≤ k := by
  intro fuel
  induction fuel with
  | zero => intro n k _; simp [natLog2Aux]
  | succ f ih =>
    intro n k hn
    simp only [natLog2Aux]
    split_ifs with h2
    · exact Nat.zero_le k
    · match k with
      | 0 => omega
      | k + 1 =>
        have hhalf : n / 2 < 2 ^ (k + 1) := by
          have : (2 : ℕ) ^ (k + 2) = 2 * 2 ^ (k + 1) := by ring
          omega
        have := ih (n / 2) k hhalf
        omega

/-- Core of the float analysis: for an even denominator scale `p ≥ 8`,
truncating the nearest-even rounding of `v·p / 10` back down by `p` is exact
truncated division by 10.  (The rounding moves the value by at most `1/2`
out of `p ≥ 8`, and the boundary case is checked exactly.) -/
theorem rne_mul_div (v p : Nat) (hp : 8 ≤ p) (h2 : p % 2 = 0) :
    rne (v * p) 10 / p = v / 10 := by
  have hx : v * p = v % 10 * p + 10 * (v / 10 * p) := by
    conv_lhs => rw [← Nat.div_add_mod v 10]
    ring
  have hq : v * p / 10 = v % 10 * p / 10 + v / 10 * p := by
    rw [hx, Nat.add_mul_div_left _ _ (by norm_num : 0 < 10)]
  have hr : v * p % 10 = v % 10 * p % 10 := by
    rw [hx, Nat.add_mul_mod_self_left]
  have hbp : v % 10 * p ≤ 9 * p := Nat.mul_le_mul_right _ (by omega)
  have hpe : v % 10 * p % 2 = 0 := by
    rw [Nat.mul_mod, h2, Nat.mul_zero, Nat.zero_mod]
  have hre : v % 10 * p % 10 % 2 = 0 := by
    rw [Nat.mod_mod_of_dvd _ (by norm_num : (2 : ℕ) ∣ 10)]
    exact hpe
  have htr : 10 * (v % 10 * p / 10) + v % 10 * p % 10 = v % 10 * p :=
    Nat.div_add_mod _ 10
  have hrlt : v % 10 * p % 10 < 10 := Nat.mod_lt _ (by norm_num)
  unfold rne
  rw [hq, hr]
  split_ifs with hgt hlt
  · -- rounds up: the increment cannot cross the next multiple of p
    have hstep : v % 10 * p / 10 + 1 < p := by omega
    have : v % 10 * p / 10 + v / 10 * p + 1 = (v % 10 * p / 10 + 1) + v / 10 * p := by
      ring
    rw [this, Nat.add_mul_div_right _ _ (by omega : 0 < p),
      Nat.div_eq_of_lt hstep, Nat.zero_add]
  · -- rounds down
    have hstep : v % 10 * p / 10 < p := by omega
    rw [Nat.add_mul_div_right _ _ (by omega : 0 < p),
      Nat.div_eq_of_lt hstep, Nat.zero_add]
  · -- a tie would need remainder 5, impossible for an even numerator
    omega

theorem floorLog2Frac_le {v : Nat} (hv : v < 2 ^ 53) : floorLog2Frac v ≤ 49 := by
  unfold floorLog2Frac
  split_ifs with h10 h5 h3 h2
  · have hdiv : v / 10 < 2 ^ 50 := by
      have : v < 10 * 2 ^ 50 := by norm_num at hv ⊢; omega
      omega
    have : natLog2 (v / 10) ≤ 49 := natLog2Aux_le 1100 (v / 10) 49 hdiv
    exact_mod_cast Int.ofNat_le.mpr this
  · norm_num
  · norm_num
  · norm_num
  · norm_num

/-- For every `v < 2 ^ 53` the Python expression `int(v / 10)` agrees with
exact truncated integer division `v / 10`: the double rounding cannot move
the value across an integer boundary in this range. -/
theorem pyIntDiv10_eq_div {v : Nat} (hv : v < 2 ^ 53) : pyIntDiv10 v = v / 10 := by
  unfold pyIntDiv10
  split_ifs with h0
  · subst h0; rfl
  · have he : floorLog2Frac v ≤ 49 := floorLog2Frac_le hv
    have hle : floorLog2Frac v ≤ 52 := by omega
    simp only [hle, if_true]
    have hshift : 3 ≤ (52 - floorLog2Frac v).toNat := by omega
    have hp8 : 8 ≤ 2 ^ (52 - floorLog2Frac v).toNat := by
      calc (8 : ℕ) = 2 ^ 3 := by norm_num
      _ ≤ 2 ^ (52 - floorLog2Frac v).toNat :=
        Nat.pow_le_pow_right (by norm_num) hshift
    have hpe : 2 ^ (52 - floorLog2Frac v).toNat % 2 = 0 := by
      have h1 : (52 - floorLog2Frac v).toNat = ((52 - floorLog2Frac v).toNat - 1) + 1 := by
        omega
      rw [h1, pow_succ, Nat.mul_mod_left]
    exact rne_mul_div v _ hp8 hpe

/-! ### Helper lemmas: parsing canonical timestamps -/

theorem matchTs_tsStr (h m s ms : Nat) :
    matchTs (tsStr h m s ms) =
      some (⟨numStr h, pad2 m, pad2 s, ',', pad3 ms⟩, []) := by
  have hcolon : Char.isDigit ':' = false := by decide
  have hcomma : Char.isDigit ',' = false := by decide
  have e1t := takeWhile_all_append Char.isDigit (numStr h)
    (':' :: (pad2 m ++ ':' :: (pad2 s ++ ',' :: pad3 ms))) (numStr_all_digits h)
  have e1d := dropWhile_all_append Char.isDigit (numStr h)
    (':' :: (pad2 m ++ ':' :: (pad2 s ++ ',' :: pad3 ms))) (numStr_all_digits h)
  have e2t := takeWhile_all_append Char.isDigit (pad2 m)
    (':' :: (pad2 s ++ ',' :: pad3 ms)) (pad2_all_digits m)
  have e2d := dropWhile_all_append Char.isDigit (pad2 m)
    (':' :: (pad2 s ++ ',' :: pad3 ms)) (pad2_all_digits m)
  have e3t := takeWhile_all_append Char.isDigit (pad2 s)
    (',' :: pad3 ms) (pad2_all_digits s)
  have e3d := dropWhile_all_append Char.isDigit (pad2 s)
    (',' :: pad3 ms) (pad2_all_digits s)
  have e4t := takeWhile_all Char.isDigit (pad3 ms) (pad3_all_digits ms)
  have e4d := dropWhile_all Char.isDigit (pad3 ms) (pad3_all_digits ms)
  simp [matchTs, tsStr, e1t, e1d, e2t, e2d, e3t, e3d, e4t, e4d,
    List.takeWhile_cons, List.dropWhile_cons, hcolon, hcomma,
    numStr_ne_nil, pad2_ne_nil, pad3_ne_nil]

theorem srt_time_to_lrc_tsStr (h m s ms : Nat) :
    srt_time_to_lrc (tsStr h m s ms) =
      some (lrcFormat (h * 60 + m) s (pyIntDiv10 ms)) := by
  simp [srt_time_to_lrc, matchTs_tsStr, parseNat_numStr, parseNat_pad2, parseNat_pad3]

/-! ### Helper lemmas: block processing and the document pipeline -/

theorem processBlock_some {block line : List Char} (h : processBlock block = some line) :
    3 ≤ (splitNl (pyStrip block)).length ∧
    ∃ g1 t, timeLineMatch ((splitNl (pyStrip block)).getD 1 []) = some g1 ∧
      srt_time_to_lrc g1 = some t ∧ cleanedText block ≠ [] ∧
      line = t ++ cleanedText block := by
  unfold processBlock at h
  split at h
  · exact absurd h (by simp)
  · rename_i hlen
    split at h
    · exact absurd h (by simp)
    · rename_i g1 htm
      split at h
      · exact absurd h (by simp)
      · rename_i t hst
        split at h
        · exact absurd h (by simp)
        · rename_i htxt
          refine ⟨by omega, g1, t, htm, hst, htxt, ?_⟩
          simpa using h.symm

theorem processBlock_eq_some {b g1 t : List Char}
    (hlen : 3 ≤ (splitNl (pyStrip b)).length)
    (htm : timeLineMatch ((splitNl (pyStrip b)).getD 1 []) = some g1)
    (hst : srt_time_to_lrc g1 = some t) (htxt : cleanedText b ≠ []) :
    processBlock b = some (t ++ cleanedText b) := by
  simp only [processBlock, htm, hst, if_neg (by omega : ¬(splitNl (pyStrip b)).length < 3),
    if_neg htxt]

theorem processBlock_isSome_iff (b : List Char) :
    (processBlock b).isSome = true ↔
      3 ≤ (splitNl (pyStrip b)).length ∧
      ∃ g1 t, timeLineMatch ((splitNl (pyStrip b)).getD 1 []) = some g1 ∧
        srt_time_to_lrc g1 = some t ∧ cleanedText b ≠ [] := by
  constructor
  · intro h
    rw [Option.isSome_iff_exists] at h
    obtain ⟨line, hline⟩ := h
    obtain ⟨hlen, g1, t, htm, hst, htxt, _⟩ := processBlock_some hline
    exact ⟨hlen, g1, t, htm, hst, htxt⟩
  · rintro ⟨hlen, g1, t, htm, hst, htxt⟩
    rw [processBlock_eq_some hlen htm hst htxt]
    simp

theorem srt_time_to_lrc_shape {cs t : List Char} (h : srt_time_to_lrc cs = some t) :
    ∃ tm ss cc, t = lrcFormat tm ss cc := by
  unfold srt_time_to_lrc at h
  split at h
  · exact absurd h (by simp)
  · exact ⟨_, _, _, (Option.some_inj.mp h).symm⟩

theorem matchTs_decomp {cs : List Char} {g : TsGroups} {rest : List Char}
    (h : matchTs cs = some (g, rest)) :
    cs = g.d1 ++ ':' :: g.d2 ++ ':' :: g.d3 ++ g.sep :: g.d4 ++ rest ∧
    g.d1 ≠ [] ∧ g.d2 ≠ [] ∧ g.d3 ≠ [] ∧ g.d4 ≠ [] ∧
    (∀ c ∈ g.d1, c.isDigit = true) ∧ (∀ c ∈ g.d2, c.isDigit = true) ∧
    (∀ c ∈ g.d3, c.isDigit = true) ∧ (∀ c ∈ g.d4, c.isDigit = true) ∧
    (g.sep = ',' ∨ g.sep = '.') := by
  unfold matchTs at h
  split at h
  · exact absurd h (by simp)
  · rename_i c1 r1 hd1
    split at h
    · exact absurd h (by simp)
    · rename_i h1
      push_neg at h1
      obtain ⟨hc1, hne1⟩ := h1
      split at h
      · exact absurd h (by simp)
      · rename_i c2 r2 hd2
        split at h
        · exact absurd h (by simp)
        · rename_i h2
          push_neg at h2
          obtain ⟨hc2, hne2⟩ := h2
          split at h
          · exact absurd h (by simp)
          · rename_i c3 r3 hd3
            split at h
            · rename_i h3
              obtain ⟨hsep, hne3, hne4⟩ := h3
              set d1 := cs.takeWhile Char.isDigit with hD1
              set d2 := r1.takeWhile Char.isDigit with hD2
              set d3 := r2.takeWhile Char.isDigit with hD3
              set d4 := r3.takeWhile Char.isDigit with hD4
              set rest4 := r3.dropWhile Char.isDigit with hD5
              have hpair := Option.some_inj.mp h
              have hgg : (⟨d1, d2, d3, c3, d4⟩ : TsGroups) = g := congrArg Prod.fst hpair
              have hrr : rest4 = rest := congrArg Prod.snd hpair
              subst hgg
              subst hrr
              refine ⟨?_, hne1, hne2, hne3, hne4,
                fun c hc => List.mem_takeWhile_imp (hD1 ▸ hc),
                fun c hc => List.mem_takeWhile_imp (hD2 ▸ hc),
                fun c hc => List.mem_takeWhile_imp (hD3 ▸ hc),
                fun c hc => List.mem_takeWhile_imp (hD4 ▸ hc), hsep⟩
              have e1 : cs = d1 ++ (c1 :: r1) := by
                rw [hD1, ← hd1, List.takeWhile_append_dropWhile]
              have e2 : r1 = d2 ++ (c2 :: r2) := by
                rw [hD2, ← hd2, List.takeWhile_append_dropWhile]
              have e3 : r2 = d3 ++ (c3 :: r3) := by
                rw [hD3, ← hd3, List.takeWhile_append_dropWhile]
              have e4 : r3 = d4 ++ rest4 := by
                rw [hD4, hD5, List.takeWhile_append_dropWhile]
              dsimp only
              rw [e1, hc1, e2, hc2, e3, e4]
              simp
            · exact absurd h (by simp)

theorem lrcLines_eq_nil {content : List Char}
    (hall : ∀ b ∈ pySplitBlank (pyStrip content), processBlock b = none) :
    lrcLines content = [] := by
  unfold lrcLines
  exact List.filterMap_eq_nil_iff.mpr hall

theorem processBlock_none_of_empty_text {b : List Char} (htxt : cleanedText b = []) :
    processBlock b = none := by
  cases hpb : processBlock b with
  | none => rfl
  | some line =>
    obtain ⟨_, _, _, _, _, hne, _⟩ := processBlock_some hpb
    exact absurd htxt hne

theorem srt_to_lrc_read_none {fs : FS} {p : List Char} (lp : Option (List Char))
    (h : fs p = none) : srt_to_lrc fs p lp = (none, fs) := by
  unfold srt_to_lrc
  rw [h]

theorem srt_to_lrc_no_lines {fs : FS} {p content : List Char} (lp : Option (List Char))
    (h : fs p = some content) (hls : lrcLines content = []) :
    srt_to_lrc fs p lp = (none, fs) := by
  unfold srt_to_lrc
  rw [h]
  simp [hls]

theorem srt_to_lrc_success {fs : FS} {p content : List Char} (lp : Option (List Char))
    (h : fs p = some content) (hne : lrcLines content ≠ []) :
    srt_to_lrc fs p lp =
      (some (lp.getD (splitextRoot p ++ (".lrc").data)),
        fsWrite fs (lp.getD (splitextRoot p ++ (".lrc").data))
          (List.intercalate ['\n'] (lrcLines content) ++ ['\n'])) := by
  unfold srt_to_lrc
  rw [h]
  simp [hne]

/-! ### The claims -/

/-- C1: for every valid SRT timestamp string `H:MM:SS,mmm` (hours unbounded,
two-digit minutes and seconds, three-digit millisecond fraction),
`srt_time_to_lrc` returns the bracketed string `[MM:SS.CC]` whose minutes
field is `h*60 + m` (hour overflow folds into minutes, unbounded), whose
seconds field is `s` zero-padded to two digits, and whose `CC` is
`⌊mmm/10⌋` zero-padded to two digits; in particular `00:01:23,456`
converts to `[01:23.45]` and `01:02:03,000` converts to `[62:03.00]`. -/
theorem c1_timestamp_conversion :
    (∀ h m s ms : Nat, m ≤ 99 → s ≤ 99 → ms ≤ 999 →
      srt_time_to_lrc (tsStr h m s ms) = some (lrcFormat (h * 60 + m) s (ms / 10))) ∧
    srt_time_to_lrc (("00:01:23,456").data) = some (("[01:23.45]").data) ∧
    srt_time_to_lrc (("01:02:03,000").data) = some (("[62:03.00]").data) := by
  refine ⟨fun h m s ms _ _ hms => ?_, by decide, by decide⟩
  rw [srt_time_to_lrc_tsStr, pyIntDiv10_eq_div (lt_of_le_of_lt hms (by norm_num))]

/-- C1 witness: the universally quantified part instantiated at the
timestamp `1:02:03,456`. -/
theorem c1_witness :
    ((2 : Nat) ≤ 99 ∧ (3 : Nat) ≤ 99 ∧ (456 : Nat) ≤ 999) ∧
    srt_time_to_lrc (tsStr 1 2 3 456) = some (lrcFormat (1 * 60 + 2) 3 (456 / 10)) :=
  ⟨by decide, c1_timestamp_conversion.1 1 2 3 456 (by decide) (by decide) (by decide)⟩

/-- C2: a block whose stripped text has fewer than 3 lines, or whose second
line does not match the time-range pattern, or whose start timestamp fails
to convert, is skipped: it produces no output line, and removing it from
the block list leaves the lines produced for the other blocks unchanged
(the conversion never aborts — the model is total). -/
theorem c2_malformed_block_skipped (b : List Char)
    (hbad : (splitNl (pyStrip b)).length < 3 ∨
      timeLineMatch ((splitNl (pyStrip b)).getD 1 []) = none ∨
      ∃ g1, timeLineMatch ((splitNl (pyStrip b)).getD 1 []) = some g1 ∧
        srt_time_to_lrc g1 = none) :
    processBlock b = none ∧
    ∀ bs1 bs2 : List (List Char),
      (bs1 ++ b :: bs2).filterMap processBlock =
        (bs1 ++ bs2).filterMap processBlock := by
  have hnone : processBlock b = none := by
    unfold processBlock
    rcases hbad with hlen | htm | ⟨g1, htm, hst⟩
    · rw [if_pos hlen]
    · by_cases hlen : (splitNl (pyStrip b)).length < 3
      · rw [if_pos hlen]
      · rw [if_neg hlen]
        simp only [htm]
    · by_cases hlen : (splitNl (pyStrip b)).length < 3
      · rw [if_pos hlen]
      · rw [if_neg hlen]
        simp only [htm, hst]
  refine ⟨hnone, fun bs1 bs2 => ?_⟩
  rw [List.filterMap_append, List.filterMap_append, List.filterMap_cons_none hnone]

/-- C2 witness: a two-line block between two other blocks contributes no
output line and leaves the other blocks' output unchanged. -/
theorem c2_witness :
    processBlock (("1\n00:00:01,000 --> 00:00:02,000").data) = none ∧
    ([("x").data] ++ (("1\n00:00:01,000 --> 00:00:02,000").data) :: [("y").data]).filterMap
        processBlock =
      ([("x").data] ++ [("y").data]).filterMap processBlock :=
  ⟨(c2_malformed_block_skipped _ (Or.inl (by decide))).1,
    (c2_malformed_block_skipped _ (Or.inl (by decide))).2 [("x").data] [("y").data]⟩

/-- C3: when every block of the document is skipped (no block produces an
output line), `srt_to_lrc` returns `none` and the file system is unchanged
— no output file is written. -/
theorem c3_no_output_no_write (fs : FS) (p content : List Char) (lp : Option (List Char))
    (h : fs p = some content)
    (hall : ∀ b ∈ pySplitBlank (pyStrip content), processBlock b = none) :
    srt_to_lrc fs p lp = (none, fs) :=
  srt_to_lrc_no_lines lp h (lrcLines_eq_nil hall)

/-- C3 witness: a document consisting of a single two-line block yields
`none` and an unchanged file system. -/
theorem c3_witness :
    ((fun q => if q = ("a.srt").data
        then some (("1\n00:00:01,000 --> 00:00:02,000").data) else none : FS)
      (("a.srt").data) = some (("1\n00:00:01,000 --> 00:00:02,000").data)) ∧
    (∀ b ∈ pySplitBlank (pyStrip (("1\n00:00:01,000 --> 00:00:02,000").data)),
      processBlock b = none) ∧
    srt_to_lrc
      (fun q => if q = ("a.srt").data
        then some (("1\n00:00:01,000 --> 00:00:02,000").data) else none)
      (("a.srt").data) none =
      (none, fun q => if q = ("a.srt").data
        then some (("1\n00:00:01,000 --> 00:00:02,000").data) else none) :=
  ⟨by decide, by decide,
    c3_no_output_no_write
      (fun q => if q = ("a.srt").data
        then some (("1\n00:00:01,000 --> 00:00:02,000").data) else none)
      (("a.srt").data) (("1\n00:00:01,000 --> 00:00:02,000").data) none
      (by decide) (by decide)⟩

/-- C4: on success `srt_to_lrc` writes the emitted lines joined by single
newlines with one trailing newline, to the supplied output path or, by
default, the input path with its extension replaced by `.lrc`, and returns
that path; every emitted line is an LRC timestamp `[MM:SS.CC]` immediately
followed by the cleaned text with no separating space. -/
theorem c4_success_output (fs : FS) (p content : List Char) (lp : Option (List Char))
    (h : fs p = some content) (hne : lrcLines content ≠ []) :
    srt_to_lrc fs p lp =
      (some (lp.getD (splitextRoot p ++ (".lrc").data)),
        fsWrite fs (lp.getD (splitextRoot p ++ (".lrc").data))
          (List.intercalate ['\n'] (lrcLines content) ++ ['\n'])) ∧
    ∀ block line, processBlock block = some line →
      ∃ g1 tm ss cc, timeLineMatch ((splitNl (pyStrip block)).getD 1 []) = some g1 ∧
        srt_time_to_lrc g1 = some (lrcFormat tm ss cc) ∧ cleanedText block ≠ [] ∧
        line = lrcFormat tm ss cc ++ cleanedText block := by
  refine ⟨srt_to_lrc_success lp h hne, fun block line hline => ?_⟩
  obtain ⟨_, g1, t, htm, hst, htxt, rfl⟩ := processBlock_some hline
  obtain ⟨tm, ss, cc, rfl⟩ := srt_time_to_lrc_shape hst
  exact ⟨g1, tm, ss, cc, htm, hst, htxt, rfl⟩

/-- C4 witness: a single-valid-block document written with the default
output path. -/
theorem c4_witness :
    ((fun q => if q = ("a.srt").data
        then some (("1\n00:00:01,000 --> 00:00:02,000\nHello").data) else none : FS)
      (("a.srt").data) = some (("1\n00:00:01,000 --> 00:00:02,000\nHello").data)) ∧
    lrcLines (("1\n00:00:01,000 --> 00:00:02,000\nHello").data) ≠ [] ∧
    srt_to_lrc
      (fun q => if q = ("a.srt").data
        then some (("1\n00:00:01,000 --> 00:00:02,000\nHello").data) else none)
      (("a.srt").data) none =
      (some ((none : Option (List Char)).getD
          (splitextRoot (("a.srt").data) ++ (".lrc").data)),
        fsWrite
          (fun q => if q = ("a.srt").data
            then some (("1\n00:00:01,000 --> 00:00:02,000\nHello").data) else none)
          ((none : Option (List Char)).getD
            (splitextRoot (("a.srt").data) ++ (".lrc").data))
          (List.intercalate ['\n']
            (lrcLines (("1\n00:00:01,000 --> 00:00:02,000\nHello").data)) ++ ['\n'])) :=
  ⟨by decide, by decide,
    (c4_success_output
      (fun q => if q = ("a.srt").data
        then some (("1\n00:00:01,000 --> 00:00:02,000\nHello").data) else none)
      (("a.srt").data) (("1\n00:00:01,000 --> 00:00:02,000\nHello").data) none
      (by decide) (by decide)).1⟩

/-- C5: a missing input path makes `srt_to_lrc` return `none` with the
file system untouched (the `FileNotFoundError` is caught inside). -/
theorem c5_missing_input (fs : FS) (p : List Char) (lp : Option (List Char))
    (h : fs p = none) : srt_to_lrc fs p lp = (none, fs) :=
  srt_to_lrc_read_none lp h

/-- C5 witness: the empty file system. -/
theorem c5_witness :
    ((fun _ => none : FS) (("a.srt").data) = none) ∧
    srt_to_lrc (fun _ => none) (("a.srt").data) none = (none, fun _ => none) :=
  ⟨rfl, c5_missing_input _ _ _ rfl⟩

/-- C6 counterexample: the claim describes tag removal as deleting every
substring `<...>` with no nested angle brackets.  The code's regex
`<[^>]+>` allows a nested `<` inside the tag.  On the block text `<a<b>x`
the code deletes the whole of `<a<b>` leaving `x`, while the claim's
no-nested-bracket removal deletes only `<b>`, leaving `<ax`. -/
theorem c6_counterexample :
    cleanedText (("1\n00:00:01,000 --> 00:00:02,000\n<a<b>x").data) = ("x").data ∧
    pyStrip (specStripTags (List.intercalate [' ']
      ((splitNl (pyStrip (("1\n00:00:01,000 --> 00:00:02,000\n<a<b>x").data))).drop 2))) =
      ("<ax").data ∧
    ("x").data ≠ ("<ax").data :=
  ⟨by decide, by decide, by decide⟩

/-- C6 (amended): for every block the text is produced by joining the lines
from index 2 on with a single space, removing every substring consisting of
`<`, one or more characters none of which is `>` (these may include further
`<` characters), then `>`, scanning leftmost-first, and trimming
whitespace; `<i>Hello</i> world` cleans to `Hello world`; a block whose
cleaned text is empty is excluded from the output; and when every block
cleans to empty the result is an absent value with no file written. -/
theorem c6_text_cleaning :
    (∀ block : List Char, cleanedText block =
      pyStrip (stripTags (List.intercalate [' '] ((splitNl (pyStrip block)).drop 2)))) ∧
    pyStrip (stripTags (("<i>Hello</i> world").data)) = ("Hello world").data ∧
    (∀ block : List Char, cleanedText block = [] → processBlock block = none) ∧
    (∀ (fs : FS) (p content : List Char) (lp : Option (List Char)),
      fs p = some content →
      (∀ b ∈ pySplitBlank (pyStrip content), cleanedText b = []) →
      srt_to_lrc fs p lp = (none, fs)) := by
  refine ⟨fun block => rfl, by decide,
    fun block htxt => processBlock_none_of_empty_text htxt,
    fun fs p content lp h hall => ?_⟩
  exact srt_to_lrc_no_lines lp h
    (lrcLines_eq_nil fun b hb => processBlock_none_of_empty_text (hall b hb))

/-- C6 witness: a block whose only text line is a pair of tags cleans to
empty and is excluded. -/
theorem c6_witness :
    cleanedText (("1\n00:00:01,000 --> 00:00:02,000\n<i></i>").data) = [] ∧
    processBlock (("1\n00:00:01,000 --> 00:00:02,000\n<i></i>").data) = none :=
  ⟨by decide, c6_text_cleaning.2.2.1 _ (by decide)⟩

/-- C7 counterexample: the claim asserts truncation `v / 10` for every
fraction value `v`, regardless of the number of digits.  The code computes
`int(ms / 10)` with float division: for the 17-digit fraction
`99999999999999999` the correctly rounded double of `v/10` is `10^16`, so
the emitted centisecond value is `10000000000000000`, not the truncation
`9999999999999999`. -/
theorem c7_counterexample :
    srt_time_to_lrc (("0:00:00,99999999999999999").data) =
      some (lrcFormat 0 0 (pyIntDiv10 99999999999999999)) ∧
    parseNat (("99999999999999999").data) = 99999999999999999 ∧
    pyIntDiv10 99999999999999999 = 10000000000000000 ∧
    (99999999999999999 : Nat) / 10 = 9999999999999999 ∧
    lrcFormat 0 0 10000000000000000 ≠ lrcFormat 0 0 9999999999999999 :=
  ⟨by decide, by decide, by decide, by decide, by decide⟩

/-- C7 (amended): for every timestamp whose fraction digits parse to a
value `v < 2^53` — which covers every 3-digit millisecond fraction — the
centiseconds component emitted by `srt_time_to_lrc` is exactly `v`
integer-divided by 10 with truncation; for larger `v` the float division
in the code can round upward and differ. -/
theorem c7_centiseconds_truncate (cs : List Char) (g : TsGroups) (rest : List Char)
    (hm : matchTs cs = some (g, rest)) (hv : parseNat g.d4 < 2 ^ 53) :
    srt_time_to_lrc cs =
      some (lrcFormat (parseNat g.d1 * 60 + parseNat g.d2) (parseNat g.d3)
        (parseNat g.d4 / 10)) := by
  simp only [srt_time_to_lrc, hm]
  rw [pyIntDiv10_eq_div hv]

/-- C7 witness: the timestamp `00:01:23,456`. -/
theorem c7_witness :
    matchTs (("00:01:23,456").data) =
      some (⟨("00").data, ("01").data, ("23").data, ',', ("456").data⟩, []) ∧
    parseNat (("456").data) < 2 ^ 53 ∧
    srt_time_to_lrc (("00:01:23,456").data) =
      some (lrcFormat (parseNat (("00").data) * 60 + parseNat (("01").data))
        (parseNat (("23").data)) (parseNat (("456").data) / 10)) :=
  ⟨by decide, by decide,
    c7_centiseconds_truncate (("00:01:23,456").data)
      ⟨("00").data, ("01").data, ("23").data, ',', ("456").data⟩ []
      (by decide) (by decide)⟩

/-- C8: the output document holds exactly one line per block accepted by
the per-block processing, in the original block order; a block is accepted
iff it has at least 3 lines, its second line matches the time range, its
start timestamp converts, and its cleaned text is non-empty; and the
two-valid-plus-one-malformed document produces exactly its two lines in
order. -/
theorem c8_one_line_per_valid_block :
    (∀ blocks : List (List Char), blocks.filterMap processBlock =
      (blocks.filter (fun b => (processBlock b).isSome)).map
        (fun b => (processBlock b).getD [])) ∧
    (∀ b : List Char, (processBlock b).isSome = true ↔
      3 ≤ (splitNl (pyStrip b)).length ∧
      ∃ g1 t, timeLineMatch ((splitNl (pyStrip b)).getD 1 []) = some g1 ∧
        srt_time_to_lrc g1 = some t ∧ cleanedText b ≠ []) ∧
    lrcLines (("1\n00:00:01,000 --> 00:00:02,000\nHello\n\n2\n00:00:03,000 --> 00:00:04,000\n\n3\n00:00:05,000 --> 00:00:06,000\nWorld").data) =
      [("[00:01.00]Hello").data, ("[00:05.00]World").data] := by
  refine ⟨?_, processBlock_isSome_iff, by decide⟩
  intro blocks
  induction blocks with
  | nil => rfl
  | cons b bs ih =>
    cases hb : processBlock b with
    | none => simp [List.filterMap_cons, List.filter_cons, hb, ih]
    | some line => simp [List.filterMap_cons, List.filter_cons, hb, ih]

/-- C10: `srt_to_lrc` modifies at most the one entry at the output path
(the supplied path or the derived default); every other path is unchanged,
and on both failure paths (missing input, zero emitted lines) the whole
file system is unchanged. -/
theorem c10_frame_effect (fs : FS) (p : List Char) (lp : Option (List Char)) :
    (∀ q : List Char, q ≠ lp.getD (splitextRoot p ++ (".lrc").data) →
      (srt_to_lrc fs p lp).2 q = fs q) ∧
    ((srt_to_lrc fs p lp).1 = none → (srt_to_lrc fs p lp).2 = fs) := by
  cases hread : fs p with
  | none =>
    rw [srt_to_lrc_read_none lp hread]
    exact ⟨fun _ _ => rfl, fun _ => rfl⟩
  | some content =>
    by_cases hls : lrcLines content = []
    · rw [srt_to_lrc_no_lines lp hread hls]
      exact ⟨fun _ _ => rfl, fun _ => rfl⟩
    · rw [srt_to_lrc_success lp hread hls]
      refine ⟨fun q hq => ?_, fun hnone => ?_⟩
      · simp [fsWrite, hq]
      · simp at hnone

/-- C10 witness: an unrelated path is untouched. -/
theorem c10_witness :
    (("b.srt").data ≠ (none : Option (List Char)).getD
      (splitextRoot (("a.srt").data) ++ (".lrc").data)) ∧
    (srt_to_lrc (fun _ => none) (("a.srt").data) none).2 (("b.srt").data) =
      (fun _ => none : FS) (("b.srt").data) :=
  ⟨by decide,
    (c10_frame_effect (fun _ => none) (("a.srt").data) none).1 (("b.srt").data) (by decide)⟩

/-- C9: `srt_time_to_lrc` returns `none` whenever its input is not of the
form: one or more digits, `:`, digits, `:`, digits, a `,` or `.`, one or
more digits, followed by anything.  Stated contrapositively: whenever the
result is not `none` the input decomposes into that form. -/
theorem c9_pattern_required (cs : List Char)
    (hno : ¬ ∃ (d1 d2 d3 : List Char) (c : Char) (d4 rest : List Char),
      cs = d1 ++ ':' :: d2 ++ ':' :: d3 ++ c :: d4 ++ rest ∧
      d1 ≠ [] ∧ d2 ≠ [] ∧ d3 ≠ [] ∧ d4 ≠ [] ∧
      (∀ x ∈ d1, x.isDigit = true) ∧ (∀ x ∈ d2, x.isDigit = true) ∧
      (∀ x ∈ d3, x.isDigit = true) ∧ (∀ x ∈ d4, x.isDigit = true) ∧
      (c = ',' ∨ c = '.')) :
    srt_time_to_lrc cs = none := by
  cases hm : matchTs cs with
  | none => simp [srt_time_to_lrc, hm]
  | some pr =>
    obtain ⟨g, rest⟩ := pr
    obtain ⟨heq, h1, h2, h3, h4, hd1, hd2, hd3, hd4, hsep⟩ := matchTs_decomp hm
    exact absurd ⟨g.d1, g.d2, g.d3, g.sep, g.d4, rest, heq, h1, h2, h3, h4,
      hd1, hd2, hd3, hd4, hsep⟩ hno

/-- C9 witness: the string `:x` starts with no digit, so it cannot
decompose as the pattern requires, and the converter rejects it. -/
theorem c9_witness : srt_time_to_lrc ((":x").data) = none :=
  c9_pattern_required ((":x").data) (by
    rintro ⟨d1, d2, d3, c, d4, rest, heq, h1, -, -, -, hd1, -⟩
    have hx : ((":x").data : List Char) = ':' :: ['x'] := rfl
    rw [hx] at heq
    cases d1 with
    | nil => exact h1 rfl
    | cons a t =>
      simp only [List.append_assoc, List.cons_append] at heq
      injection heq with hhead _
      have ha := hd1 a (List.mem_cons_self a t)
      rw [← hhead] at ha
      exact absurd ha (by decide))
